import Mathlib

/-!
Verification of the httpkeepalive graceful-shutdown demo.

The definitions below are a shallow embedding of the repository code:

* `go-demo/main.go` — the Go server: `connectionCloseWriter` with its
  `injectHeader` guard, the `ready` handler, the `ConnState` connection
  counter, the `sleep` latency sampler (uniform and weighted modes),
  `buildInverseDiscreteCDF`, `forwardTraceHeaders`, `proxy`, `shutdown`
  and `doGracefulShutdown`.
* the Node server — its `drainConnections` loop.

Machine integers are modelled as `Int` with explicit wrapping where the
source uses fixed-width atomics (`atomic.Int32`, `int64`), rationals
stand in for `float32`/`float64` values, and randomness is passed in as
an explicit draw so that theorems quantify over it.
-/

namespace HttpKeepAlive

/-! ## Fixed-width integer wrapping -/

/-- Wrap an integer into the two-complement range of a 32-bit signed
integer, the semantics of Go `atomic.Int32.Add`. -/
def wrap32 (x : Int) : Int := (x + 2 ^ 31) % 2 ^ 32 - 2 ^ 31

/-- Wrap an integer into the two-complement range of a 64-bit signed
integer, the semantics of Go `int64` arithmetic. -/
def wrap64 (x : Int) : Int := (x + 2 ^ 63) % 2 ^ 64 - 2 ^ 63

theorem wrap32_eq_self {x : Int} (h1 : -(2 ^ 31) ≤ x) (h2 : x < 2 ^ 31) :
    wrap32 x = x := by
  unfold wrap32
  omega

theorem wrap64_eq_self {x : Int} (h1 : -(2 ^ 63) ≤ x) (h2 : x < 2 ^ 63) :
    wrap64 x = x := by
  unfold wrap64
  omega

/-! ## Response decorator: `connectionCloseWriter` (main.go lines 34-73)

The Go type wraps an `http.ResponseWriter` with a `headerWritten` flag.
`injectHeader` runs at the start of `WriteHeader`, `Write` and
`ReadFrom`; `Flush` delegates without injecting.  We record how many
times `Header().Set("Connection", "close")` executed, which is the
observable header mutation. -/

/-- State of one `connectionCloseWriter`: the per-response guard flag,
and the number of times the close advertisement was set on the
underlying header map. -/
structure ConnectionCloseWriter where
  headerWritten : Bool
  closeSetCount : Nat
deriving DecidableEq, Repr

/-- The writer state at the start of a response (`graceful` constructs
the wrapper with a zero value `headerWritten`). -/
def ConnectionCloseWriter.initial : ConnectionCloseWriter :=
  { headerWritten := false, closeSetCount := 0 }

/-- Translation of `injectHeader`: if the guard flag is unset, set it,
and set the `Connection: close` header when `shutdownInitiated` reads
true at this moment. -/
def ConnectionCloseWriter.injectHeader (shutdownInitiated : Bool)
    (w : ConnectionCloseWriter) : ConnectionCloseWriter :=
  if w.headerWritten then w
  else
    { headerWritten := true
      closeSetCount :=
        if shutdownInitiated then w.closeSetCount + 1 else w.closeSetCount }

/-- Operations a handler can perform on the decorated writer. -/
inductive WriterOp
  | writeHeader
  | write
  | readFrom
  | flush
deriving DecidableEq, Repr

/-- Whether the operation calls `injectHeader` before delegating:
`WriteHeader`, `Write` and `ReadFrom` do, `Flush` does not. -/
def WriterOp.callsInject : WriterOp → Bool
  | .writeHeader => true
  | .write => true
  | .readFrom => true
  | .flush => false

/-- One step of the decorated writer; `phase` is the value of
`shutdownInitiated.Load()` at the time of the call. -/
def writerStep (w : ConnectionCloseWriter) (call : Bool × WriterOp) :
    ConnectionCloseWriter :=
  if call.2.callsInject then w.injectHeader call.1 else w

/-- Run a whole sequence of writer operations, each paired with the
shutdown phase observed during that operation. -/
def runWriter (calls : List (Bool × WriterOp)) : ConnectionCloseWriter :=
  calls.foldl writerStep ConnectionCloseWriter.initial

theorem injectHeader_headerWritten (p : Bool) (w : ConnectionCloseWriter) :
    (w.injectHeader p).headerWritten = true ∨ w.injectHeader p = w := by
  unfold ConnectionCloseWriter.injectHeader
  by_cases h : w.headerWritten
  · right; simp [h]
  · left; simp [h]

theorem writerStep_of_headerWritten (w : ConnectionCloseWriter)
    (h : w.headerWritten = true) (call : Bool × WriterOp) :
    writerStep w call = w := by
  unfold writerStep ConnectionCloseWriter.injectHeader
  simp [h]

theorem foldl_writerStep_of_headerWritten (calls : List (Bool × WriterOp))
    (w : ConnectionCloseWriter) (h : w.headerWritten = true) :
    calls.foldl writerStep w = w := by
  induction calls with
  | nil => rfl
  | cons c cs ih => simp [List.foldl_cons, writerStep_of_headerWritten w h c, ih]

theorem foldl_writerStep_of_noInject (pre : List (Bool × WriterOp))
    (w : ConnectionCloseWriter) (h : ∀ c ∈ pre, c.2.callsInject = false) :
    pre.foldl writerStep w = w := by
  induction pre with
  | nil => rfl
  | cons c cs ih =>
    have hc : c.2.callsInject = false := h c (by simp)
    have hw : writerStep w c = w := by simp [writerStep, hc]
    simp only [List.foldl_cons, hw]
    exact ih fun d hd => h d (by simp [hd])

/-- C2: for every response whose writes all happen while the Shutdown
Phase is Draining, the decorated writer sets the connection-close
header exactly once, no matter how the response is written (one
`WriteHeader`, many small `Write` calls, or a streamed `ReadFrom`): the
per-response guard flag stops the injection check after the first
committing operation. -/
theorem draining_response_close_exactly_once (ops : List WriterOp)
    (h : ops.any WriterOp.callsInject = true) :
    (runWriter (ops.map fun op => (true, op))).closeSetCount = 1 := by
  induction ops with
  | nil => simp at h
  | cons op ops ih =>
    simp only [List.map_cons]
    unfold runWriter
    rw [List.foldl_cons]
    by_cases hc : op.callsInject
    · have hstep : writerStep ConnectionCloseWriter.initial (true, op) =
          { headerWritten := true, closeSetCount := 1 } := by
        simp [writerStep, hc, ConnectionCloseWriter.injectHeader,
          ConnectionCloseWriter.initial]
      rw [hstep, foldl_writerStep_of_headerWritten _ _ rfl]
    · have hstep : writerStep ConnectionCloseWriter.initial (true, op) =
          ConnectionCloseWriter.initial := by
        simp [writerStep, hc]
      rw [hstep]
      have hh : ops.any WriterOp.callsInject = true := by
        rcases List.any_eq_true.mp h with ⟨x, hx, hinj⟩
        rcases List.mem_cons.mp hx with hx | hx
        · exact absurd hinj (by simp [hx] at hc ⊢; exact hc)
        · exact List.any_eq_true.mpr ⟨x, hx, hinj⟩
      exact ih hh

/-- Witness for C2 at a concrete operation sequence: a header commit
followed by two body writes and a streamed copy sets the close header
exactly once. -/
theorem draining_response_close_exactly_once_witness :
    ([WriterOp.writeHeader, WriterOp.write, WriterOp.write,
      WriterOp.readFrom].any WriterOp.callsInject = true) ∧
    (runWriter ([WriterOp.writeHeader, WriterOp.write, WriterOp.write,
      WriterOp.readFrom].map fun op => (true, op))).closeSetCount = 1 :=
  ⟨by decide, draining_response_close_exactly_once _ (by decide)⟩

/-- C9: the per-response guard flag is consumed at the first committing
operation even while the phase is still Running, so a response whose
first write happens before the phase flips to Draining never gets the
connection-close advertisement on any later write, whatever phase those
later writes observe. -/
theorem first_write_before_draining_never_advertises
    (pre rest : List (Bool × WriterOp)) (op0 : WriterOp)
    (hpre : ∀ c ∈ pre, c.2.callsInject = false)
    (hop : op0.callsInject = true) :
    (runWriter (pre ++ (false, op0) :: rest)).closeSetCount = 0 ∧
    (runWriter (pre ++ (false, op0) :: rest)).headerWritten = true := by
  unfold runWriter
  rw [List.foldl_append, foldl_writerStep_of_noInject pre _ hpre, List.foldl_cons]
  have hstep : writerStep ConnectionCloseWriter.initial (false, op0) =
      { headerWritten := true, closeSetCount := 0 } := by
    simp [writerStep, hop, ConnectionCloseWriter.injectHeader,
      ConnectionCloseWriter.initial]
  rw [hstep, foldl_writerStep_of_headerWritten _ _ rfl]
  exact ⟨rfl, rfl⟩

/-- Witness for C9: a flush, then a first write while Running, then two
writes while Draining — the close header is never set and the guard
flag is consumed. -/
theorem first_write_before_draining_never_advertises_witness :
    (runWriter ([(true, WriterOp.flush)] ++ (false, WriterOp.write) ::
      [(true, WriterOp.write), (true, WriterOp.readFrom)])).closeSetCount = 0 ∧
    (runWriter ([(true, WriterOp.flush)] ++ (false, WriterOp.write) ::
      [(true, WriterOp.write), (true, WriterOp.readFrom)])).headerWritten = true :=
  first_write_before_draining_never_advertises _ _ _ (by decide) (by decide)

/-! ## Readiness handler and shutdown sequence (main.go lines 217-224
and 271-288)

The `shutdown` function runs after the signal goroutine has delivered
the termination signal: it sleeps for `shutdownSleepDuration` (10 s),
only then stores `shutdownInitiated = true`, optionally drains, and
finally calls `server.Shutdown`.  We model the sequence of actions and
the value of `shutdownInitiated` observable while each action runs. -/

/-- Milliseconds slept by `shutdown` before anything else happens
(`shutdownSleepDuration = 10 * time.Second`). -/
def shutdownSleepDurationMs : Nat := 10000

/-- The atomic actions of the Go `shutdown` function, in program
order. -/
inductive ShutdownAction
  | sleepPreShutdown
  | storeShutdownInitiated
  | gracefulDrain
  | serverShutdownCall
deriving DecidableEq, Repr

/-- Program order of `shutdown`: sleep, store the flag, drain when the
graceful feature flag is on, then stop the listener. -/
def shutdownSequence (graceful : Bool) : List ShutdownAction :=
  [ShutdownAction.sleepPreShutdown, ShutdownAction.storeShutdownInitiated] ++
    (if graceful then [ShutdownAction.gracefulDrain] else []) ++
    [ShutdownAction.serverShutdownCall]

/-- Effect of one action on the `shutdownInitiated` flag. -/
def applyShutdownAction (initiated : Bool) : ShutdownAction → Bool
  | .storeShutdownInitiated => true
  | _ => initiated

/-- Values of `shutdownInitiated` observable after the signal has been
received: before any action, and after each completed action. -/
def observedPhases (graceful : Bool) : List Bool :=
  (shutdownSequence graceful).scanl applyShutdownAction false

/-- Translation of the `ready` handler: once `shutdownInitiated` reads
true, set `Connection: close` and reply 503; otherwise write `OK`
(an implicit 200). -/
structure ReadyResponse where
  status : Nat
  connectionClose : Bool
  body : String
deriving DecidableEq, Repr

/-- The `ready` handler as a function of the shutdown flag it loads. -/
def ready (shutdownInitiated : Bool) : ReadyResponse :=
  if shutdownInitiated then
    { status := 503, connectionClose := true, body := "" }
  else
    { status := 200, connectionClose := false, body := "OK" }

/-- C3 counterexample: it is not true that every state reachable after
the termination signal has been received answers `GET /ready` with a
non-200 status — during the fixed 10-second pre-shutdown sleep the flag
is still false and `ready` still answers 200. -/
theorem ready_not_503_immediately_after_signal :
    ¬ (∀ b ∈ observedPhases true, (ready b).status ≠ 200) := by
  intro h
  exact h false (by decide) (by decide)

/-- C3 amended: the shutdown sequence flips `shutdownInitiated` only
after the fixed pre-shutdown sleep completes; from the flip onward every
observable state answers `GET /ready` with 503, the connection-close
advertisement present, and never 200. -/
theorem ready_503_after_flip :
    ((observedPhases true).take 2).all (fun b => b = false) = true ∧
    ((observedPhases true).drop 2).all (fun b => b = true) = true ∧
    (ready true).status = 503 ∧
    (ready true).connectionClose = true ∧
    (ready true).status ≠ 200 ∧
    (ready false).status = 200 := by
  decide

/-! ## Connection tracker: the `ConnState` callback (main.go lines 341-353)

`numConnections` is an `atomic.Int32`; the callback adds 1 on
`StateNew`, subtracts 1 on `StateClosed` and `StateHijacked`, and
ignores the other transitions.  Addition wraps in 32 bits. -/

/-- The `http.ConnState` values the callback can receive. -/
inductive ConnEvent
  | stateNew
  | stateActive
  | stateIdle
  | stateHijacked
  | stateClosed
deriving DecidableEq, Repr

/-- Delta applied to `numConnections` by the `ConnState` callback. -/
def connStateDelta : ConnEvent → Int
  | .stateNew => 1
  | .stateClosed => -1
  | .stateHijacked => -1
  | _ => 0

/-- One callback invocation: a wrapping 32-bit atomic add. -/
def connStateStep (n : Int) (e : ConnEvent) : Int :=
  wrap32 (n + connStateDelta e)

/-- Replay a sequence of connection lifecycle events through the
tracker, starting from the zero counter. -/
def replayConns (evs : List ConnEvent) : Int :=
  evs.foldl connStateStep 0

/-- Number of connection-open events in a sequence. -/
def openEvents (evs : List ConnEvent) : Nat :=
  evs.count ConnEvent.stateNew

/-- Number of connection-close events in a sequence (a hijack also
decrements, as the connection left HTTP service). -/
def closeEvents (evs : List ConnEvent) : Nat :=
  evs.count ConnEvent.stateClosed + evs.count ConnEvent.stateHijacked

/-- Claim C4 formalised literally: over all event sequences, the count
equals opens minus closes and no prefix ever goes negative. -/
def trackerClaim : Prop :=
  ∀ evs : List ConnEvent,
    replayConns evs = (openEvents evs : Int) - closeEvents evs ∧
    ∀ n, n ≤ evs.length → 0 ≤ replayConns (evs.take n)

/-- C4 counterexample: the tracker decrements unconditionally, so the
sequence consisting of a single close event drives the counter to -1,
refuting the literal universally-quantified claim. -/
theorem tracker_claim_false : ¬ trackerClaim := by
  intro h
  have h0 := (h [ConnEvent.stateClosed]).2 1 (by decide)
  have h1 : 0 ≤ replayConns [ConnEvent.stateClosed] := by simpa using h0
  have h2 : replayConns [ConnEvent.stateClosed] = -1 := by
    show connStateStep 0 ConnEvent.stateClosed = -1
    unfold connStateStep connStateDelta wrap32
    decide
  omega

theorem counts_take_succ (evs : List ConnEvent) (n : Nat) (hn : n < evs.length) :
    (openEvents (evs.take (n + 1)) : Int) - closeEvents (evs.take (n + 1)) =
      (openEvents (evs.take n) : Int) - closeEvents (evs.take n) +
        connStateDelta (evs.get ⟨n, hn⟩) := by
  have ht : evs.take (n + 1) = evs.take n ++ [evs.get ⟨n, hn⟩] := by
    rw [List.take_succ]
    simp [List.getElem?_eq_getElem hn]
  rw [ht]
  unfold openEvents closeEvents
  rw [List.count_append, List.count_append, List.count_append]
  cases evs.get ⟨n, hn⟩ <;> simp [connStateDelta] <;> omega

/-- C4 amended: for every event sequence in which each prefix contains
at least as many opens as closes and the net live count stays within
the positive Int32 range, replaying any prefix yields exactly opens
minus closes, and the count is never negative at any prefix. -/
theorem tracker_count_opens_minus_closes (evs : List ConnEvent)
    (h : ∀ n, n ≤ evs.length →
      closeEvents (evs.take n) ≤ openEvents (evs.take n) ∧
      (openEvents (evs.take n) : Int) - closeEvents (evs.take n) ≤ 2 ^ 31 - 1) :
    ∀ n, n ≤ evs.length →
      replayConns (evs.take n) =
        (openEvents (evs.take n) : Int) - closeEvents (evs.take n) ∧
      0 ≤ replayConns (evs.take n) := by
  intro n
  induction n with
  | zero =>
    intro _
    simp [replayConns, openEvents, closeEvents]
  | succ m ih =>
    intro hm
    have hmlt : m < evs.length := by omega
    have hrec := ih (by omega)
    have ht : evs.take (m + 1) = evs.take m ++ [evs.get ⟨m, hmlt⟩] := by
      rw [List.take_succ]
      simp [List.getElem?_eq_getElem hmlt]
    have hrepl : replayConns (evs.take (m + 1)) =
        connStateStep (replayConns (evs.take m)) (evs.get ⟨m, hmlt⟩) := by
      rw [ht]
      unfold replayConns
      rw [List.foldl_append]
      rfl
    have hcnt := counts_take_succ evs m hmlt
    have hb := h (m + 1) hm
    have hdelta : -1 ≤ connStateDelta (evs.get ⟨m, hmlt⟩) ∧
        connStateDelta (evs.get ⟨m, hmlt⟩) ≤ 1 := by
      cases evs.get ⟨m, hmlt⟩ <;> simp [connStateDelta]
    have hval : replayConns (evs.take (m + 1)) =
        (openEvents (evs.take (m + 1)) : Int) - closeEvents (evs.take (m + 1)) := by
      rw [hrepl]
      unfold connStateStep
      rw [hrec.1, ← hcnt]
      refine wrap32_eq_self ?_ ?_
      · have := (h (m + 1) hm).1
        omega
      · have := (h (m + 1) hm).2
        omega
    refine ⟨hval, ?_⟩
    rw [hval]
    have := hb.1
    omega

/-- Witness for the amended C4 at a concrete well-formed trace of two
opens, two activity events and two closes. -/
theorem tracker_count_opens_minus_closes_witness :
    (∀ n, n ≤ ([ConnEvent.stateNew, ConnEvent.stateActive, ConnEvent.stateNew,
        ConnEvent.stateIdle, ConnEvent.stateClosed,
        ConnEvent.stateHijacked] : List ConnEvent).length →
      closeEvents (([ConnEvent.stateNew, ConnEvent.stateActive,
        ConnEvent.stateNew, ConnEvent.stateIdle, ConnEvent.stateClosed,
        ConnEvent.stateHijacked] : List ConnEvent).take n) ≤
        openEvents (([ConnEvent.stateNew, ConnEvent.stateActive,
          ConnEvent.stateNew, ConnEvent.stateIdle, ConnEvent.stateClosed,
          ConnEvent.stateHijacked] : List ConnEvent).take n) ∧
      (openEvents (([ConnEvent.stateNew, ConnEvent.stateActive,
        ConnEvent.stateNew, ConnEvent.stateIdle, ConnEvent.stateClosed,
        ConnEvent.stateHijacked] : List ConnEvent).take n) : Int) -
        closeEvents (([ConnEvent.stateNew, ConnEvent.stateActive,
          ConnEvent.stateNew, ConnEvent.stateIdle, ConnEvent.stateClosed,
          ConnEvent.stateHijacked] : List ConnEvent).take n) ≤ 2 ^ 31 - 1) ∧
    (replayConns ([ConnEvent.stateNew, ConnEvent.stateActive,
        ConnEvent.stateNew, ConnEvent.stateIdle, ConnEvent.stateClosed,
        ConnEvent.stateHijacked] : List ConnEvent) =
      (openEvents ([ConnEvent.stateNew, ConnEvent.stateActive,
        ConnEvent.stateNew, ConnEvent.stateIdle, ConnEvent.stateClosed,
        ConnEvent.stateHijacked] : List ConnEvent) : Int) -
        closeEvents ([ConnEvent.stateNew, ConnEvent.stateActive,
          ConnEvent.stateNew, ConnEvent.stateIdle, ConnEvent.stateClosed,
          ConnEvent.stateHijacked] : List ConnEvent) ∧
      0 ≤ replayConns ([ConnEvent.stateNew, ConnEvent.stateActive,
        ConnEvent.stateNew, ConnEvent.stateIdle, ConnEvent.stateClosed,
        ConnEvent.stateHijacked] : List ConnEvent)) := by
  refine ⟨by decide, ?_⟩
  have h := tracker_count_opens_minus_closes
    [ConnEvent.stateNew, ConnEvent.stateActive, ConnEvent.stateNew,
      ConnEvent.stateIdle, ConnEvent.stateClosed, ConnEvent.stateHijacked]
    (by decide) 6 (by decide)
  simpa using h

/-! ## Latency sampler, weighted mode (main.go lines 87-103)

`buildInverseDiscreteCDF` accumulates the normalized probabilities into
a cumulative table and returns a closure that draws `r` in `[0, 1)` and
scans the table for the first entry with `r <= cdf[i]`, falling back to
the last value.  Rationals stand in for `float32`; durations are int64
nanosecond counts.  The Go loop walks `cdf` by index `i` and reads
`values[i]`; the caller builds both lists in lockstep with equal
length, which the `zip` below mirrors. -/

/-- Cumulative sums of a probability list, in the given order: the
`cumProb += p; cdf[i] = cumProb` loop of `buildInverseDiscreteCDF`. -/
def buildCDF (cum : ℚ) : List ℚ → List ℚ
  | [] => []
  | p :: ps => (cum + p) :: buildCDF (cum + p) ps

/-- Normalization performed by `sleep` before building the CDF:
every probability is multiplied by `1 / totalProb`. -/
def normalizeProbs (totalProb : ℚ) (ps : List ℚ) : List ℚ :=
  ps.map fun p => p * (1 / totalProb)

/-- The scan inside the returned sampler closure: first entry whose
cumulative probability is at least `r`. -/
def cdfLoop (r : ℚ) : List (Nat × ℚ) → Option Nat
  | [] => none
  | (v, cp) :: rest => if r ≤ cp then some v else cdfLoop r rest

/-- The sampler closure of `buildInverseDiscreteCDF`: scan the table,
and if no entry qualifies return the last listed value
(`values[len(values)-1]`). -/
def sampleCDF (values : List Nat) (cdf : List ℚ) (r : ℚ) : Option Nat :=
  match cdfLoop r (values.zip cdf) with
  | some v => some v
  | none => values.getLast?

theorem cdfLoop_mem {r : ℚ} {l : List (Nat × ℚ)} {v : Nat}
    (h : cdfLoop r l = some v) : ∃ cp, (v, cp) ∈ l := by
  induction l with
  | nil => simp [cdfLoop] at h
  | cons p rest ih =>
    rcases p with ⟨v0, cp0⟩
    unfold cdfLoop at h
    by_cases hr : r ≤ cp0
    · rw [if_pos hr] at h
      injection h with h1
      exact ⟨cp0, by simp [← h1]⟩
    · rw [if_neg hr] at h
      rcases ih h with ⟨cp, hcp⟩
      exact ⟨cp, by simp [hcp]⟩

/-- C5: in weighted mode, for every distribution with non-negative
weights and strictly positive total, the sampler built from the
cumulative table of the normalized weights, applied to any uniform draw
`r` in `[0, 1)`, succeeds and returns one of the listed durations —
either the first entry whose cumulative probability reaches `r`, or the
last entry as the explicit fallback. -/
theorem weighted_sample_in_support (values : List Nat) (weights : List ℚ)
    (r : ℚ) (hne : values ≠ []) (_hlen : weights.length = values.length)
    (_hw : ∀ w ∈ weights, 0 ≤ w) (_hpos : 0 < weights.sum)
    (_hr0 : 0 ≤ r) (_hr1 : r < 1) :
    ∃ d, sampleCDF values (buildCDF 0 (normalizeProbs weights.sum weights)) r
        = some d ∧ d ∈ values := by
  unfold sampleCDF
  cases h : cdfLoop r
      (values.zip (buildCDF 0 (normalizeProbs weights.sum weights))) with
  | some v =>
    rcases cdfLoop_mem h with ⟨cp, hcp⟩
    exact ⟨v, rfl, (List.of_mem_zip hcp).1⟩
  | none =>
    refine ⟨values.getLast hne, ?_, List.getLast_mem hne⟩
    rw [List.getLast?_eq_getLast values hne]

/-- Witness for C5: the distribution of the spec example, two durations
with equal weight, sampled at r = 1/3, yields a listed duration. -/
theorem weighted_sample_in_support_witness :
    ∃ d, sampleCDF [100000000, 200000000]
        (buildCDF 0 (normalizeProbs (([1, 1] : List ℚ).sum) [1, 1])) (1 / 3)
        = some d ∧ d ∈ [100000000, 200000000] :=
  weighted_sample_in_support [100000000, 200000000] [1, 1] (1 / 3)
    (by decide) (by decide) (by norm_num) (by norm_num) (by norm_num)
    (by norm_num)

/-! ## Latency sampler, uniform mode (main.go lines 154-171)

The uniform branch computes
`sleepDuration := lo + time.Duration(rand.Int63n(int64(hi-lo+1)))`.
Durations are int64 nanosecond counts, the arithmetic wraps in 64 bits,
and `rand.Int63n` panics when its argument is not positive — modelled
as `none`.  The random draw is an arbitrary natural reduced into
`[0, n)`. -/

/-- Model of `rand.Int63n`: panics (`none`) unless `0 < n`, otherwise
some draw in `[0, n)`. -/
def int63n (n : Int) (rnd : Nat) : Option Int :=
  if n ≤ 0 then none else some ((rnd : Int) % n)

/-- The uniform branch of the `sleep` handler, as a function of the
bounds and of the random draw. -/
def sleepUniform (lo hi : Int) (rnd : Nat) : Option Int :=
  match int63n (wrap64 (hi - lo + 1)) rnd with
  | none => none
  | some k => some (wrap64 (lo + k))

/-- C6: at the failing input of the claim, `min = 200ms` and
`max = 100ms`, the uniform sampler does not return `lo`: `hi - lo + 1`
is negative, so `rand.Int63n` panics, for every random draw. -/
theorem sleep_uniform_panics_on_inverted_bounds (rnd : Nat) :
    sleepUniform 200000000 100000000 rnd = none := by
  have hw : wrap64 ((100000000 : Int) - 200000000 + 1) = -99999999 := by
    unfold wrap64
    decide
  unfold sleepUniform
  rw [hw]
  unfold int63n
  norm_num

/-- Supporting fact: whenever `lo ≤ hi` and the bounds are genuine
int64 durations whose span does not overflow, the uniform sampler
returns a duration in `[lo, hi]` inclusive. -/
theorem sleep_uniform_in_range (lo hi : Int) (rnd : Nat) (h1 : lo ≤ hi)
    (hlo : -(2 ^ 63) ≤ lo) (hhi : hi < 2 ^ 63) (hspan : hi - lo + 1 < 2 ^ 63) :
    ∃ d, sleepUniform lo hi rnd = some d ∧ lo ≤ d ∧ d ≤ hi := by
  have hn : wrap64 (hi - lo + 1) = hi - lo + 1 := wrap64_eq_self (by omega) hspan
  have hpos : ¬ (hi - lo + 1 ≤ 0) := by omega
  have hmod0 : 0 ≤ (rnd : Int) % (hi - lo + 1) :=
    Int.emod_nonneg _ (by omega)
  have hmod1 : (rnd : Int) % (hi - lo + 1) < hi - lo + 1 :=
    Int.emod_lt_of_pos _ (by omega)
  refine ⟨wrap64 (lo + (rnd : Int) % (hi - lo + 1)), ?_, ?_, ?_⟩
  · unfold sleepUniform int63n
    rw [hn, if_neg hpos]
  · rw [wrap64_eq_self (by omega) (by omega)]
    omega
  · rw [wrap64_eq_self (by omega) (by omega)]
    omega

/-- Witness for the range fact at the default bounds 50ms and 1s. -/
theorem sleep_uniform_in_range_witness :
    ∃ d, sleepUniform 50000000 1000000000 7 = some d ∧
      50000000 ≤ d ∧ d ≤ 1000000000 :=
  sleep_uniform_in_range 50000000 1000000000 7 (by norm_num) (by norm_num)
    (by norm_num) (by norm_num)

/-- Supporting fact: with equal bounds the uniform sampler always
returns exactly `lo`, for every random draw. -/
theorem sleep_uniform_equal_bounds (lo : Int) (rnd : Nat)
    (hlo : -(2 ^ 63) ≤ lo) (hhi : lo < 2 ^ 63) :
    sleepUniform lo lo rnd = some lo := by
  have hn : wrap64 (lo - lo + 1) = 1 := by
    have : lo - lo + 1 = 1 := by omega
    rw [this]
    unfold wrap64
    decide
  unfold sleepUniform int63n
  rw [hn, if_neg (by omega), Int.emod_one]
  show some (wrap64 (lo + 0)) = some lo
  rw [add_zero, wrap64_eq_self hlo hhi]

/-- Witness for the equal-bounds fact at 100ms. -/
theorem sleep_uniform_equal_bounds_witness :
    sleepUniform 100000000 100000000 42 = some 100000000 :=
  sleep_uniform_equal_bounds 100000000 42 (by norm_num) (by norm_num)

/-! ## Latency sampler, weighted-mode input validation (main.go lines
105-153)

The `pdf` query parameter is split on commas; each pair is split on the
first colon (`strings.SplitN(pair, ":", 2)`); the duration and the
probability are parsed by `time.ParseDuration` and `fmt.Sscanf`, which
we model as parameters since they are standard-library collaborators.
Any failure answers HTTP 400 and skips the sleep; so does a
non-positive probability total. -/

/-- Go `strings.SplitN(s, ":", 2)`: at most one split, at the first
colon. -/
def splitN2Colon (s : String) : List String :=
  match s.splitOn ":" with
  | [] => []
  | [x] => [x]
  | x :: rest => [x, String.intercalate ":" rest]

/-- Whether an `Except` is in the error case. -/
def exceptHasError {ε α : Type} : Except ε α → Bool
  | Except.error _ => true
  | Except.ok _ => false

/-- The parse loop of the weighted branch: walk the comma-separated
pairs in order, aborting with the matching error message at the first
malformed pair, unparsable duration or unparsable probability. -/
def parsePdfLoop (parseDur : String → Option Nat)
    (parseProb : String → Option ℚ) : List String →
    Except String (List (Nat × ℚ))
  | [] => Except.ok []
  | pair :: rest =>
    match splitN2Colon pair with
    | [durStr, probStr] =>
      match parseDur durStr with
      | none => Except.error "Failed to parse duration in pdf\n"
      | some dur =>
        match parseProb probStr with
        | none => Except.error "Failed to parse probability in pdf\n"
        | some prob =>
          match parsePdfLoop parseDur parseProb rest with
          | Except.error e => Except.error e
          | Except.ok entries => Except.ok ((dur, prob) :: entries)
    | _ => Except.error "Invalid pdf parameter\n"

/-- The whole weighted branch of `sleep`: parse, check the total, then
normalize, build the CDF and sample.  Errors carry the HTTP status
(always 400, `http.StatusBadRequest`); success carries the sampled
duration and implies the handler slept instead of erroring. -/
def sleepWeighted (parseDur : String → Option Nat)
    (parseProb : String → Option ℚ) (pdf : String) (r : ℚ) :
    Except (String × Nat) (Option Nat) :=
  match parsePdfLoop parseDur parseProb (pdf.splitOn ",") with
  | Except.error msg => Except.error (msg, 400)
  | Except.ok entries =>
    let values := entries.map Prod.fst
    let probabilities := entries.map Prod.snd
    let totalProb := probabilities.sum
    if totalProb ≤ 0 then
      Except.error ("Total probability in pdf must be greater than 0\n", 400)
    else
      Except.ok (sampleCDF values
        (buildCDF 0 (normalizeProbs totalProb probabilities)) r)

/-- A pair is well-formed when it has the `duration:weight` shape and
both halves parse. -/
def pairGood (parseDur : String → Option Nat)
    (parseProb : String → Option ℚ) (pair : String) : Bool :=
  match splitN2Colon pair with
  | [durStr, probStr] => (parseDur durStr).isSome && (parseProb probStr).isSome
  | _ => false

/-- The probability a pair contributes, when its shape is right and the
probability parses. -/
def probOf (parseProb : String → Option ℚ) (pair : String) : Option ℚ :=
  match splitN2Colon pair with
  | [_, probStr] => parseProb probStr
  | _ => none

/-- Total weight of a pdf parameter, summing the parsable pairs. -/
def pdfTotal (parseProb : String → Option ℚ) (pdf : String) : ℚ :=
  ((pdf.splitOn ",").filterMap (probOf parseProb)).sum

theorem parsePdfLoop_hasError (parseDur : String → Option Nat)
    (parseProb : String → Option ℚ) (pairs : List String) :
    exceptHasError (parsePdfLoop parseDur parseProb pairs) =
      !(pairs.all (pairGood parseDur parseProb)) := by
  induction pairs with
  | nil => rfl
  | cons pair rest ih =>
    rw [List.all_cons]
    unfold parsePdfLoop pairGood
    cases hsp : splitN2Colon pair with
    | nil => simp [exceptHasError]
    | cons x xs =>
      cases xs with
      | nil => simp [exceptHasError]
      | cons y ys =>
        cases ys with
        | cons z zs => simp [exceptHasError]
        | nil =>
          cases hd : parseDur x with
          | none => simp [exceptHasError, hd]
          | some dur =>
            cases hp : parseProb y with
            | none => simp [exceptHasError, hd, hp]
            | some prob =>
              cases hrest : parsePdfLoop parseDur parseProb rest with
              | error e =>
                rw [hrest] at ih
                simp [exceptHasError, hd, hp] at ih ⊢
                exact ih
              | ok entries =>
                rw [hrest] at ih
                simp [exceptHasError, hd, hp] at ih ⊢
                exact ih

theorem parsePdfLoop_ok_probs (parseDur : String → Option Nat)
    (parseProb : String → Option ℚ) (pairs : List String)
    (entries : List (Nat × ℚ))
    (h : parsePdfLoop parseDur parseProb pairs = Except.ok entries) :
    entries.map Prod.snd = pairs.filterMap (probOf parseProb) := by
  induction pairs generalizing entries with
  | nil =>
    unfold parsePdfLoop at h
    cases h
    rfl
  | cons pair rest ih =>
    unfold parsePdfLoop at h
    rw [List.filterMap_cons]
    cases hsp : splitN2Colon pair with
    | nil => rw [hsp] at h; cases h
    | cons x xs =>
      cases xs with
      | nil => rw [hsp] at h; cases h
      | cons y ys =>
        cases ys with
        | cons z zs => rw [hsp] at h; cases h
        | nil =>
          rw [hsp] at h
          dsimp only at h
          have hpo : probOf parseProb pair = parseProb y := by
            unfold probOf
            rw [hsp]
          cases hd : parseDur x with
          | none => rw [hd] at h; cases h
          | some dur =>
            rw [hd] at h
            cases hp : parseProb y with
            | none => rw [hp] at h; cases h
            | some prob =>
              rw [hp] at h
              cases hrest : parsePdfLoop parseDur parseProb rest with
              | error e => rw [hrest] at h; cases h
              | ok tailEntries =>
                rw [hrest] at h
                cases h
                rw [hpo, hp]
                dsimp only
                rw [List.map_cons, ih tailEntries hrest]

/-- C7: the weighted mode of the latency endpoint answers a 400 client
error, and does not sleep, exactly when the input is invalid — a pair
without the `duration:weight` shape, an unparsable duration, an
unparsable weight, or a total weight that is zero or negative — and
every error it emits carries status 400, so valid input never produces
an error response. -/
theorem weighted_mode_error_iff_invalid (parseDur : String → Option Nat)
    (parseProb : String → Option ℚ) (pdf : String) (r : ℚ) :
    (exceptHasError (sleepWeighted parseDur parseProb pdf r) = true ↔
      ((pdf.splitOn ",").all (pairGood parseDur parseProb) = false ∨
        pdfTotal parseProb pdf ≤ 0)) ∧
    (∀ m s, sleepWeighted parseDur parseProb pdf r = Except.error (m, s) →
      s = 400) := by
  have hloop := parsePdfLoop_hasError parseDur parseProb (pdf.splitOn ",")
  unfold sleepWeighted
  cases hparse : parsePdfLoop parseDur parseProb (pdf.splitOn ",") with
  | error msg =>
    rw [hparse] at hloop
    have hall : (pdf.splitOn ",").all (pairGood parseDur parseProb) = false := by
      have hloop2 : true = !((pdf.splitOn ",").all (pairGood parseDur parseProb)) :=
        hloop
      cases hb : (pdf.splitOn ",").all (pairGood parseDur parseProb)
      · rfl
      · rw [hb] at hloop2
        exact absurd hloop2 (by decide)
    dsimp only
    refine ⟨⟨fun _ => Or.inl hall, fun _ => rfl⟩, ?_⟩
    intro m s hms
    injection hms with h1
    cases h1
    rfl
  | ok entries =>
    rw [hparse] at hloop
    have hloop2 : false = !((pdf.splitOn ",").all (pairGood parseDur parseProb)) :=
      hloop
    have hallt : (pdf.splitOn ",").all (pairGood parseDur parseProb) = true := by
      cases hb : (pdf.splitOn ",").all (pairGood parseDur parseProb)
      · rw [hb] at hloop2
        exact absurd hloop2 (by decide)
      · rfl
    have htot : pdfTotal parseProb pdf = (entries.map Prod.snd).sum := by
      unfold pdfTotal
      rw [parsePdfLoop_ok_probs parseDur parseProb _ entries hparse]
    dsimp only
    by_cases hle : (entries.map Prod.snd).sum ≤ 0
    · rw [if_pos hle]
      refine ⟨⟨fun _ => Or.inr (htot ▸ hle), fun _ => rfl⟩, ?_⟩
      intro m s hms
      injection hms with h1
      cases h1
      rfl
    · rw [if_neg hle]
      constructor
      · constructor
        · intro hfalse
          simp [exceptHasError] at hfalse
        · intro hright
          rcases hright with hall | hle2
          · rw [hallt] at hall
            exact absurd hall (by decide)
          · rw [htot] at hle2
            exact absurd hle2 hle
      · intro m s hms
        exact absurd hms (by simp)

/-! ## Proxy relay: `forwardTraceHeaders` and `proxy` (main.go lines
173-215)

Headers are an association list keyed by canonical header name;
`headerGet` models `http.Header.Get` (first value, empty string when
absent) and `headerSet` models `http.Header.Set` (replace or insert the
single value for a key).  The upstream HTTP client is a parameter: it
either returns a response or fails, in which case `proxy` answers 502.
The forwarded request is built with `http.NoBody`.  Path slicing
`r.URL.Path[1+len(service):]` is byte-indexed in Go and char-indexed
here; the service names in the router are ASCII, where both agree. -/

/-- An incoming HTTP request as the proxy sees it. -/
structure HttpRequest where
  method : String
  path : String
  rawQuery : String
  headers : List (String × String)
  body : String
deriving DecidableEq, Repr

/-- A status and body, used both for the upstream response and for the
relayed response. -/
structure SimpleResponse where
  status : Nat
  body : String
deriving DecidableEq, Repr

/-- First value stored under a key, empty string when absent
(`http.Header.Get`). -/
def headerGet : List (String × String) → String → String
  | [], _ => ""
  | p :: rest, k => if p.1 == k then p.2 else headerGet rest k

/-- Replace the value under a key, or insert it (`http.Header.Set`). -/
def headerSet : List (String × String) → String → String → List (String × String)
  | [], k, v => [(k, v)]
  | p :: rest, k, v =>
    if p.1 == k then (k, v) :: rest else p :: headerSet rest k v

/-- The fixed allow-list of `forwardTraceHeaders`, in source order. -/
def traceHeaderNames : List String :=
  ["X-Request-ID", "X-B3-Traceid", "X-B3-Spanid", "X-B3-Parentspanid",
   "X-B3-Sampled", "X-B3-Flags", "X-Ot-Span-Context", "Traceparent",
   "Tracestate", "B3"]

/-- One iteration of the `forwardTraceHeaders` loop: copy a header
when the source holds a non-empty value for it. -/
def fwdStep (src : List (String × String)) (dest : List (String × String))
    (h : String) : List (String × String) :=
  if headerGet src h ≠ "" then headerSet dest h (headerGet src h) else dest

/-- Translation of `forwardTraceHeaders`: fold the allow-list over the
destination header map. -/
def forwardTraceHeaders (src dest : List (String × String)) :
    List (String × String) :=
  traceHeaderNames.foldl (fwdStep src) dest

/-- The upstream request `proxy` builds: same method, the path with the
leading `/{service}` sliced off, the same raw query, only the
allow-listed headers, and `http.NoBody`. -/
def forwardedRequest (service : String) (r : HttpRequest) : HttpRequest :=
  { method := r.method
    path := r.path.drop (1 + service.length)
    rawQuery := r.rawQuery
    headers := forwardTraceHeaders r.headers []
    body := "" }

/-- Translation of `proxy`: send the forwarded request; on transport
failure answer 502 with the fixed body, otherwise relay the upstream
status code and body unchanged. -/
def proxy (service : String) (r : HttpRequest)
    (upstream : HttpRequest → Option SimpleResponse) : SimpleResponse :=
  match upstream (forwardedRequest service r) with
  | none => { status := 502, body := "Request to envoy failed\n" }
  | some resp => { status := resp.status, body := resp.body }

theorem headerGet_headerSet_self (hs : List (String × String)) (k v : String) :
    headerGet (headerSet hs k v) k = v := by
  induction hs with
  | nil => simp [headerSet, headerGet]
  | cons p rest ih =>
    unfold headerSet
    by_cases hp : p.1 == k
    · rw [if_pos hp]
      simp [headerGet]
    · rw [if_neg hp]
      unfold headerGet
      rw [if_neg hp]
      exact ih

theorem headerGet_headerSet_ne (hs : List (String × String)) (k k2 v : String)
    (hne : k ≠ k2) : headerGet (headerSet hs k v) k2 = headerGet hs k2 := by
  induction hs with
  | nil => simp [headerSet, headerGet, hne]
  | cons p rest ih =>
    unfold headerSet
    by_cases hp : p.1 == k
    · rw [if_pos hp]
      have hpk : p.1 = k := by simpa using hp
      unfold headerGet
      rw [if_neg (by simpa using hne), if_neg (by simp [hpk, hne])]
    · rw [if_neg hp]
      unfold headerGet
      by_cases hp2 : p.1 == k2
      · rw [if_pos hp2, if_pos hp2]
      · rw [if_neg hp2, if_neg hp2]
        exact ih

theorem fwd_fold_not_mem (src : List (String × String)) (ns : List String)
    (acc : List (String × String)) (h : String) (hh : h ∉ ns) :
    headerGet (ns.foldl (fwdStep src) acc) h = headerGet acc h := by
  induction ns generalizing acc with
  | nil => rfl
  | cons n ns ih =>
    rw [List.foldl_cons]
    have hne : n ≠ h := fun he => hh (by simp [he])
    rw [ih _ (fun hm => hh (by simp [hm]))]
    unfold fwdStep
    by_cases hv : headerGet src n ≠ ""
    · rw [if_pos hv, headerGet_headerSet_ne _ _ _ _ hne]
    · rw [if_neg hv]

theorem fwd_fold_mem (src : List (String × String)) (ns : List String)
    (acc : List (String × String)) (h : String) (hmem : h ∈ ns)
    (hnd : ns.Nodup) :
    headerGet (ns.foldl (fwdStep src) acc) h =
      if headerGet src h = "" then headerGet acc h else headerGet src h := by
  induction ns generalizing acc with
  | nil => cases hmem
  | cons n ns ih =>
    rw [List.foldl_cons]
    rcases List.nodup_cons.mp hnd with ⟨hn, hnd2⟩
    rcases List.mem_cons.mp hmem with he | hm
    · subst he
      rw [fwd_fold_not_mem src ns _ h hn]
      unfold fwdStep
      by_cases hv : headerGet src h = ""
      · rw [if_neg (by simp [hv]), if_pos hv]
      · rw [if_pos hv, if_neg hv, headerGet_headerSet_self]
    · have hne : n ≠ h := fun he => hn (he ▸ hm)
      rw [ih _ hm hnd2]
      unfold fwdStep
      by_cases hv : headerGet src n ≠ ""
      · rw [if_pos hv, headerGet_headerSet_ne _ _ _ _ hne]
      · rw [if_neg hv]

theorem forwardTraceHeaders_get (src : List (String × String)) (h : String)
    (hmem : h ∈ traceHeaderNames) :
    headerGet (forwardTraceHeaders src []) h = headerGet src h := by
  unfold forwardTraceHeaders
  rw [fwd_fold_mem src traceHeaderNames [] h hmem (by decide)]
  by_cases hv : headerGet src h = ""
  · rw [if_pos hv, hv]
    rfl
  · rw [if_neg hv]

theorem string_drop_concat (a b : String) : (a ++ b).drop a.length = b := by
  apply String.ext
  rw [String.data_drop]
  show (a ++ b).data.drop a.data.length = b.data
  rw [String.data_append]
  exact List.drop_left a.data b.data

/-- C8: for a request on the proxy-relay path `/{service}{rest}`, the
relay strips the leading `/{service}` segment exactly once, forwards
the method, the query string and every allow-listed trace header value
(the request-id header among them) unchanged, relays the upstream
status code and body back unchanged, and answers 502 when the upstream
is unreachable. -/
theorem proxy_relays_and_strips_service_once (service : String)
    (r : HttpRequest) (rest : String)
    (upstream : HttpRequest → Option SimpleResponse)
    (hpath : r.path = "/" ++ service ++ rest) :
    (forwardedRequest service r).method = r.method ∧
    (forwardedRequest service r).path = rest ∧
    (forwardedRequest service r).rawQuery = r.rawQuery ∧
    (∀ hname ∈ traceHeaderNames,
      headerGet (forwardedRequest service r).headers hname =
        headerGet r.headers hname) ∧
    "X-Request-ID" ∈ traceHeaderNames ∧
    (upstream (forwardedRequest service r) = none →
      proxy service r upstream =
        { status := 502, body := "Request to envoy failed\n" }) ∧
    (∀ resp, upstream (forwardedRequest service r) = some resp →
      proxy service r upstream = resp) := by
  refine ⟨rfl, ?_, rfl, ?_, by decide, ?_, ?_⟩
  · show r.path.drop (1 + service.length) = rest
    have hlen : ("/" ++ service).length = 1 + service.length := by
      show ("/" ++ service).data.length = 1 + service.data.length
      rw [String.data_append]
      simp
      omega
    rw [hpath, ← hlen, string_drop_concat]
  · intro hname hmem
    exact forwardTraceHeaders_get r.headers hname hmem
  · intro hnone
    unfold proxy
    rw [hnone]
  · intro resp hsome
    unfold proxy
    rw [hsome]

/-- A concrete relay request used by the proxy witness. -/
def sampleProxyRequest : HttpRequest where
  method := "GET"
  path := "/envoy/foo"
  rawQuery := "a=1"
  headers := [("X-Request-ID", "abc123")]
  body := "ignored"

/-- A concrete reachable upstream used by the proxy witness. -/
def sampleUpstream : HttpRequest → Option SimpleResponse :=
  fun _ => some { status := 200, body := "hi" }

/-- Witness for C8: a GET on `/envoy/foo` with a request id and a
reachable upstream. -/
theorem proxy_relays_and_strips_service_once_witness :
    (forwardedRequest "envoy" sampleProxyRequest).method = "GET" ∧
    (forwardedRequest "envoy" sampleProxyRequest).path = "/foo" ∧
    (forwardedRequest "envoy" sampleProxyRequest).rawQuery = "a=1" ∧
    headerGet (forwardedRequest "envoy" sampleProxyRequest).headers
      "X-Request-ID" = "abc123" ∧
    proxy "envoy" sampleProxyRequest sampleUpstream =
      { status := 200, body := "hi" } := by
  have h := proxy_relays_and_strips_service_once "envoy" sampleProxyRequest
    "/foo" sampleUpstream rfl
  refine ⟨h.1, h.2.1, h.2.2.1, ?_, ?_⟩
  · rw [h.2.2.2.1 "X-Request-ID" (by decide)]
    rfl
  · exact h.2.2.2.2.2.2 { status := 200, body := "hi" } rfl

/-- C10: the upstream request the relay sends always carries an empty
body, whatever body the incoming request had; only the method, the
allow-listed headers, the rewritten path and the query string are taken
from the incoming request. -/
theorem proxy_upstream_body_empty (service : String) (r : HttpRequest)
    (b : String) :
    (forwardedRequest service r).body = "" ∧
    forwardedRequest service { r with body := b } =
      forwardedRequest service r ∧
    (forwardedRequest service r).headers = forwardTraceHeaders r.headers [] :=
  ⟨rfl, rfl, rfl⟩

/-! ## Drain loops (main.go lines 290-324, Node server
`drainConnections`)

Both servers poll the live connection count every 500 ms while
draining.  The Go `doGracefulShutdown` additionally arms a one-shot
timer (`time.AfterFunc(clientSideIdleTimeout, ...)` with
`clientSideIdleTimeout = 15s`, thirty polling ticks) that closes
`gracefulChan` regardless of the count.  The Node `drainConnections`
loop has no such timer: `DRAIN_TIMEOUT` is read from the environment
and logged, and gates whether draining happens at all, but is never
used to bound the loop, which repeats while the count stays positive.
Time is discretised into polling ticks, and `counts` gives the live
count observed at each tick. -/

/-- Polling ticks until the Go drain deadline timer fires:
15 s deadline over the 500 ms ticker. -/
def goDrainDeadlineTicks : Nat := 30

/-- The Go polling goroutine raced against the remaining deadline, in
ticks: stop at the first tick observing a zero count, or when the
deadline fuel runs out.  Returns the tick at which `gracefulChan`
closes. -/
def goDrainLoop (counts : Nat → Int) (tick : Nat) : Nat → Nat
  | 0 => tick
  | fuel + 1 => if counts tick = 0 then tick else goDrainLoop counts (tick + 1) fuel

/-- Tick at which the Go `doGracefulShutdown` wait completes. -/
def goDrainStopTick (counts : Nat → Int) : Nat :=
  goDrainLoop counts 0 goDrainDeadlineTicks

theorem goDrainLoop_le (counts : Nat → Int) (tick fuel : Nat) :
    goDrainLoop counts tick fuel ≤ tick + fuel := by
  induction fuel generalizing tick with
  | zero => simp [goDrainLoop]
  | succ n ih =>
    unfold goDrainLoop
    by_cases hc : counts tick = 0
    · rw [if_pos hc]
      omega
    · rw [if_neg hc]
      have := ih (tick + 1)
      omega

/-- The Go drain wait is bounded by its deadline for every observable
sequence of connection counts, leaks included. -/
theorem goDrain_bounded_by_deadline (counts : Nat → Int) :
    goDrainStopTick counts ≤ goDrainDeadlineTicks := by
  have := goDrainLoop_le counts 0 goDrainDeadlineTicks
  simpa [goDrainStopTick] using this

/-- The Node `drainConnections` loop: poll the count, close the server
when it is non-positive, otherwise wait 500 ms and repeat — with no
deadline of any kind.  `fuel` bounds how many polls we run the loop
for; `some t` means the server closed at tick `t`, `none` that the loop
was still draining after `fuel` polls. -/
def nodeDrainLoop (counts : Nat → Int) (tick : Nat) : Nat → Option Nat
  | 0 => none
  | fuel + 1 =>
    if counts tick ≤ 0 then some tick
    else nodeDrainLoop counts (tick + 1) fuel

/-- C1: with one connection that never closes, the Node
`drainConnections` loop never closes the server, however many polling
ticks elapse — in particular it does not stop at the configured
`DRAIN_TIMEOUT`, which the loop never consults.  The drain wait is
therefore unbounded, contradicting the claimed deadline-forced
transition to Stopped. -/
theorem nodeDrain_never_stops_on_leak (tick fuel : Nat) :
    nodeDrainLoop (fun _ => 1) tick fuel = none := by
  induction fuel generalizing tick with
  | zero => rfl
  | succ n ih =>
    unfold nodeDrainLoop
    rw [if_neg (by norm_num)]
    exact ih (tick + 1)

end HttpKeepAlive
